import Mathlib

/-!
Verification of the EZServer repository core: registry (config.ts), version
resolution and download (downloadUtils.ts and its callers), first-boot process
supervision (core.ts), and the server.properties editor (core.ts).

Each definition is a shallow embedding of the corresponding TypeScript source.
JavaScript strings are modelled as Lean strings (sequences of Unicode scalar
values); JavaScript string truthiness (empty string is falsy) is modelled
explicitly where the source relies on it.
-/

namespace EZServer

/-! ### Data model (src/types.ts, src/config.ts) -/

/-- ServerType enum from src/types.ts (current revision: VANILLA, SPIGOT,
PAPER, FORGE). -/
inductive ServerType where
  | vanilla
  | spigot
  | paper
  | forge
  deriving DecidableEq, Repr

/-- String value of each ServerType enum member, as declared in types.ts. -/
def ServerType.str : ServerType → String
  | .vanilla => "vanilla"
  | .spigot => "spigot"
  | .paper => "paper"
  | .forge => "forge"

/-- ConfigServer record from src/config.ts: a managed server entry. -/
structure ConfigServer where
  name : String
  path : String
  java : String
  type : ServerType
  deriving DecidableEq, Repr

/-- ConfigErrorCodes enum from src/config.ts. -/
inductive ConfigErrorCode where
  | serverExists
  | serverNotFound
  | saveError
  | loadError
  deriving DecidableEq, Repr

/-- ConfigError from src/config.ts: a message together with a code. -/
structure ConfigError where
  message : String
  code : ConfigErrorCode
  deriving DecidableEq, Repr

/-! ### Pure in-memory registry operations (src/config.ts)

The Config class holds an in-memory record list (config.servers) and a backing
file. Mutating methods update the list and then call save, which rewrites the
whole file; save and load can fail, which the source surfaces as ConfigError
with codes SAVE_ERROR and LOAD_ERROR. The file system write is modelled by an
oracle boolean (writeOk): the write either succeeds or raises. Methods are
modelled as functions from state to (post state, optional error), so that the
post state is meaningful even when an error is raised. -/

/-- State of a Config instance: in-memory record list plus backing file text. -/
structure ConfigState where
  servers : List ConfigServer
  file : String
  deriving DecidableEq, Repr

/-- Array.prototype.find by name: this.config.servers.find(s =&gt; s.name === name). -/
def findByName (servers : List ConfigServer) (name : String) : Option ConfigServer :=
  servers.find? (fun s => s.name = name)

/-- Array.prototype.find by path: this.config.servers.find(s =&gt; s.path === path). -/
def findByPath (servers : List ConfigServer) (path : String) : Option ConfigServer :=
  servers.find? (fun s => s.path = path)

/-- JavaScript truthiness of an optional string argument: undefined and the
empty string are falsy. -/
def truthy : Option String → Bool
  | some s => s ≠ ""
  | none => false

/-- Config.getServer from src/config.ts lines 72-77. The source checks
if (name) then if (path); both checks use JavaScript truthiness, so a
present-but-empty name falls through. -/
def getServer (servers : List ConfigServer) (name path : Option String) :
    Option ConfigServer :=
  if truthy name then findByName servers (name.getD "")
  else if truthy path then findByPath servers (path.getD "")
  else none

/-- Config.checkServer from src/config.ts lines 79-84: 1 for a name conflict,
2 for a path conflict, 0 otherwise. -/
def checkServer (servers : List ConfigServer) (server : ConfigServer) : Nat :=
  if (findByName servers server.name).isSome then 1
  else if (findByPath servers server.path).isSome then 2
  else 0

/-! ### JSON text produced by Config.save

Config.save writes JSON.stringify(this.config, null, 2), where this.config is
an object of shape \x7b servers: ConfigServer[] \x7d. The functions below spell
out exactly the text ECMAScript JSON.stringify produces for that shape with a
two-space gap, including its string escaping (the five shorthand escapes, quote
and backslash escapes, and lowercase \u00xx escapes for the remaining control
characters; characters at or above U+0020 are emitted literally). -/

/-- Lowercase hexadecimal digit character, as JSON.stringify emits in \u
escapes. -/
def hexDigitChar (n : Nat) : Char :=
  if n < 10 then Char.ofNat (48 + n) else Char.ofNat (87 + n)

/-- Escape of one character inside a JSON string literal, following
ECMAScript QuoteJSONString. -/
def escChar (c : Char) : List Char :=
  if c = '"' then ['\\', '"']
  else if c = '\\' then ['\\', '\\']
  else if c = '\x08' then ['\\', 'b']
  else if c = '\x0c' then ['\\', 'f']
  else if c = '\n' then ['\\', 'n']
  else if c = '\r' then ['\\', 'r']
  else if c = '\t' then ['\\', 't']
  else if c.toNat < 32 then
    ['\\', 'u', '0', '0', hexDigitChar (c.toNat / 16), hexDigitChar (c.toNat % 16)]
  else [c]

/-- Escape of a whole character sequence inside a JSON string literal. -/
def escL : List Char → List Char
  | [] => []
  | c :: cs => escChar c ++ escL cs

/-- JSON string literal (quotes included) for a string value. -/
def jstrL (s : String) : List Char :=
  '"' :: (escL s.data ++ ['"'])

/-- Text of one ConfigServer record as it appears inside the servers array of
the saved file (array element at depth two, two-space gap). -/
def serializeServerL (s : ConfigServer) : List Char :=
  "    \x7b\n      \"name\": ".data ++ jstrL s.name ++
  ",\n      \"path\": ".data ++ jstrL s.path ++
  ",\n      \"java\": ".data ++ jstrL s.java ++
  ",\n      \"type\": ".data ++ jstrL s.type.str ++
  "\n    \x7d".data

/-- Array.prototype.join with separator ",\n", as stringify joins the
serialized array elements. -/
def joinItemsL : List (List Char) → List Char
  | [] => []
  | [x] => x
  | x :: y :: ys => x ++ ",\n".data ++ joinItemsL (y :: ys)

/-- Text of the servers array: an empty array prints as a bracket pair, a
non-empty one opens a line per element at depth one. -/
def arrPartL : List ConfigServer → List Char
  | [] => "[]".data
  | s :: t => "[\n".data ++ joinItemsL ((s :: t).map serializeServerL) ++ "\n  ]".data

/-- Full text of JSON.stringify(\x7b servers \x7d, null, 2). -/
def serializeConfigL (servers : List ConfigServer) : List Char :=
  "\x7b\n  \"servers\": ".data ++ arrPartL servers ++ "\n\x7d".data

/-- Backing-file text written by Config.save. -/
def stringifyConfig (servers : List ConfigServer) : String :=
  String.mk (serializeConfigL servers)

/-! ### Registry operations with the backing file (src/config.ts) -/

/-- Config.save from src/config.ts lines 38-48: rewrite the whole backing file
with the serialized in-memory list; a failed write raises SAVE_ERROR. -/
def saveOp (writeOk : Bool) (st : ConfigState) : ConfigState × Option ConfigError :=
  if writeOk then ({ st with file := stringifyConfig st.servers }, none)
  else (st, some ⟨"Error occurred while saving config file", .saveError⟩)

/-- Config.addServer from src/config.ts lines 50-64: reject a duplicate name,
then a duplicate path, with SERVER_EXISTS, before any mutation; otherwise push
the record and save. -/
def addServerOp (writeOk : Bool) (st : ConfigState) (server : ConfigServer) :
    ConfigState × Option ConfigError :=
  if (findByName st.servers server.name).isSome then
    (st, some ⟨"Server with the same name already exists", .serverExists⟩)
  else if (findByPath st.servers server.path).isSome then
    (st, some ⟨"Server with the same path already exists", .serverExists⟩)
  else saveOp writeOk { st with servers := st.servers ++ [server] }

/-- Config.removeServer from src/config.ts lines 66-70: keep every record
whose name differs from the argument, then save unconditionally. -/
def removeServerOp (writeOk : Bool) (st : ConfigState) (name : String) :
    ConfigState × Option ConfigError :=
  saveOp writeOk { st with servers := st.servers.filter (fun s => s.name ≠ name) }

/-! ### JSON text parsing used by Config.load

Config.load runs JSON.parse on the backing file and takes the result as the
whole config object. The parser below covers the JSON value grammar reachable
from Config.save output (objects, arrays, strings with the full escape
grammar, and the three keyword literals); it rejects number tokens, which the
saved shape (all-string records) never contains, and it rejects malformed
shapes, which the source would only notice later as undefined-property
accesses. A fuel argument bounds the recursion depth; parseJsonText supplies
fuel that is always sufficient because every two consecutive recursive calls
consume at least one input character. -/

/-- JSON whitespace. -/
def isJsonWs (c : Char) : Bool :=
  c = ' ' || c = '\n' || c = '\t' || c = '\r'

/-- Drop leading JSON whitespace. -/
def skipWs : List Char → List Char
  | [] => []
  | c :: cs => if isJsonWs c then skipWs cs else c :: cs

/-- Value of one hexadecimal digit. -/
def hexVal (c : Char) : Option Nat :=
  if '0' ≤ c ∧ c ≤ '9' then some (c.toNat - 48)
  else if 'a' ≤ c ∧ c ≤ 'f' then some (c.toNat - 87)
  else if 'A' ≤ c ∧ c ≤ 'F' then some (c.toNat - 55)
  else none

/-- JSON value tree, with object members kept in source order. -/
inductive JsonVal where
  | str (s : String)
  | arr (elems : List JsonVal)
  | obj (members : List (String × JsonVal))
  | bool (b : Bool)
  | null

/-- Four hexadecimal digits, as in a \u escape. -/
def hex4 : List Char → Option (Nat × List Char)
  | a :: b :: c :: d :: r =>
    match hexVal a, hexVal b, hexVal c, hexVal d with
    | some ha, some hb, some hc, some hd =>
      some (((ha * 16 + hb) * 16 + hc) * 16 + hd, r)
    | _, _, _, _ => none
  | _ => none

/-- Decoded character of a \u escape (input begins at the first hex digit):
either a non-surrogate code unit, or a surrogate pair combined into one scalar
value; a lone surrogate is rejected since a Lean character cannot hold it. -/
def parseUni (cs : List Char) : Option (Char × List Char) :=
  match hex4 cs with
  | none => none
  | some (n, r) =>
    if 0xD800 ≤ n ∧ n ≤ 0xDBFF then
      match r with
      | '\\' :: 'u' :: r2 =>
        match hex4 r2 with
        | some (m, r3) =>
          if 0xDC00 ≤ m ∧ m ≤ 0xDFFF then
            some (Char.ofNat (0x10000 + (n - 0xD800) * 0x400 + (m - 0xDC00)), r3)
          else none
        | none => none
      | _ => none
    else if 0xDC00 ≤ n ∧ n ≤ 0xDFFF then none
    else some (Char.ofNat n, r)

/-- Decoded character of a single-character escape. -/
def escCode (e : Char) : Option Char :=
  if e = '"' then some '"'
  else if e = '\\' then some '\\'
  else if e = '/' then some '/'
  else if e = 'b' then some '\x08'
  else if e = 'f' then some '\x0c'
  else if e = 'n' then some '\n'
  else if e = 'r' then some '\r'
  else if e = 't' then some '\t'
  else none

theorem hex4_length {cs : List Char} {n : Nat} {r : List Char}
    (h : hex4 cs = some (n, r)) : r.length + 4 = cs.length := by
  match cs with
  | [] => simp [hex4] at h
  | [a] => simp [hex4] at h
  | [a, b] => simp [hex4] at h
  | [a, b, c] => simp [hex4] at h
  | a :: b :: c :: d :: r0 =>
    rcases ha : hexVal a with _ | va <;> rcases hb : hexVal b with _ | vb <;>
      rcases hc : hexVal c with _ | vc <;> rcases hd : hexVal d with _ | vd <;>
      simp [hex4, ha, hb, hc, hd] at h <;> rcases h with ⟨-, rfl⟩ <;> simp

theorem parseUni_length {cs : List Char} {u : Char} {r : List Char}
    (h : parseUni cs = some (u, r)) : r.length < cs.length := by
  unfold parseUni at h
  split at h
  · exact absurd h (by simp)
  · rename_i n r1 hx
    have h1 := hex4_length hx
    split at h
    · split at h
      · split at h
        · rename_i m r3 hx2
          have h2 := hex4_length hx2
          split at h
          · simp only [Option.some.injEq, Prod.mk.injEq] at h
            obtain ⟨-, rfl⟩ := h
            simp only [List.length_cons] at h1
            omega
          · exact absurd h (by simp)
        · exact absurd h (by simp)
      · exact absurd h (by simp)
    · split at h
      · exact absurd h (by simp)
      · simp only [Option.some.injEq, Prod.mk.injEq] at h
        obtain ⟨-, rfl⟩ := h
        omega

/-- Body of a JSON string literal, after its opening quote: returns the decoded
characters and the input past the closing quote. Handles the escape grammar of
JSON.parse including surrogate pairs; rejects unescaped control characters. -/
def parseJStr : List Char → Option (List Char × List Char)
  | [] => none
  | c :: cs =>
    if c = '"' then some ([], cs)
    else if c = '\\' then
      match cs with
      | [] => none
      | e :: cs2 =>
        if e = 'u' then
          match h : parseUni cs2 with
          | some (u, r) => (parseJStr r).map (fun p => (u :: p.1, p.2))
          | none => none
        else
          match escCode e with
          | some u => (parseJStr cs2).map (fun p => (u :: p.1, p.2))
          | none => none
    else if c.toNat < 32 then none
    else (parseJStr cs).map (fun p => (c :: p.1, p.2))
termination_by l => l.length
decreasing_by
  · have := parseUni_length h
    simp only [List.length_cons]
    omega
  · simp only [List.length_cons]
    omega
  · simp only [List.length_cons]
    omega

/-- Keyword literals true, false, null. -/
def parseLit : List Char → Option (JsonVal × List Char)
  | 't' :: 'r' :: 'u' :: 'e' :: r => some (JsonVal.bool true, r)
  | 'f' :: 'a' :: 'l' :: 's' :: 'e' :: r => some (JsonVal.bool false, r)
  | 'n' :: 'u' :: 'l' :: 'l' :: r => some (JsonVal.null, r)
  | _ => none

/-- Head test used by parseVal on the already-whitespace-stripped input. -/
def headIs (c : Char) : List Char → Bool
  | [] => false
  | d :: _ => d = c

mutual

/-- JSON value, fuel-bounded. -/
def parseVal : Nat → List Char → Option (JsonVal × List Char)
  | 0, _ => none
  | Nat.succ fuel, cs =>
    match skipWs cs with
    | [] => none
    | c :: cs1 =>
      if c = '"' then (parseJStr cs1).map (fun p => (JsonVal.str (String.mk p.1), p.2))
      else if c = '\x7b' then
        if headIs '\x7d' (skipWs cs1) then some (JsonVal.obj [], (skipWs cs1).tail)
        else (parseMembers fuel cs1).map (fun p => (JsonVal.obj p.1, p.2))
      else if c = '[' then
        if headIs ']' (skipWs cs1) then some (JsonVal.arr [], (skipWs cs1).tail)
        else (parseElems fuel cs1).map (fun p => (JsonVal.arr p.1, p.2))
      else parseLit (c :: cs1)

/-- One or more object members, fuel-bounded. -/
def parseMembers : Nat → List Char → Option (List (String × JsonVal) × List Char)
  | 0, _ => none
  | Nat.succ fuel, cs =>
    match skipWs cs with
    | '"' :: cs1 =>
      match parseJStr cs1 with
      | none => none
      | some (key, cs2) =>
        match skipWs cs2 with
        | ':' :: cs3 =>
          match parseVal fuel cs3 with
          | none => none
          | some (v, cs4) =>
            match skipWs cs4 with
            | ',' :: cs5 =>
              (parseMembers fuel cs5).map (fun p => ((String.mk key, v) :: p.1, p.2))
            | '\x7d' :: cs5 => some ([(String.mk key, v)], cs5)
            | _ => none
        | _ => none
    | _ => none

/-- One or more array elements, fuel-bounded. -/
def parseElems : Nat → List Char → Option (List JsonVal × List Char)
  | 0, _ => none
  | Nat.succ fuel, cs =>
    match parseVal fuel cs with
    | none => none
    | some (v, cs1) =>
      match skipWs cs1 with
      | ',' :: cs2 => (parseElems fuel cs2).map (fun p => (v :: p.1, p.2))
      | ']' :: cs2 => some ([v], cs2)
      | _ => none

end

/-- JSON.parse of a whole text: one value, then only whitespace. The fuel
2 * length + 2 is always sufficient: every two consecutive recursive calls
consume at least one character. -/
def parseJsonText (s : String) : Option JsonVal :=
  match parseVal (2 * s.data.length + 2) s.data with
  | some (v, rest) => if (skipWs rest).isEmpty then some v else none
  | none => none

/-- Member lookup on a parsed object: JSON.parse builds a JavaScript object,
where a later duplicate key overrides an earlier one. -/
def lookupMember (members : List (String × JsonVal)) (key : String) : Option JsonVal :=
  match members with
  | [] => none
  | (k, v) :: rest =>
    match lookupMember rest key with
    | some w => some w
    | none => if k = key then some v else none

/-- Inverse of ServerType.str on the four declared enum values. -/
def serverTypeOfString (s : String) : Option ServerType :=
  if s = "vanilla" then some .vanilla
  else if s = "spigot" then some .spigot
  else if s = "paper" then some .paper
  else if s = "forge" then some .forge
  else none

/-- Shape of one record in the parsed servers array. -/
def serverOfJson : JsonVal → Option ConfigServer
  | .obj ms =>
    match lookupMember ms "name", lookupMember ms "path",
          lookupMember ms "java", lookupMember ms "type" with
    | some (.str n), some (.str p), some (.str j), some (.str t) =>
      (serverTypeOfString t).map (fun ty => ⟨n, p, j, ty⟩)
    | _, _, _, _ => none
  | _ => none

/-- Shape of every record in the parsed servers array. -/
def serversOfJson : List JsonVal → Option (List ConfigServer)
  | [] => some []
  | v :: t =>
    match serverOfJson v, serversOfJson t with
    | some s, some rest => some (s :: rest)
    | _, _ => none

/-- Shape of the whole parsed config object. -/
def configOfJson : JsonVal → Option (List ConfigServer)
  | .obj ms =>
    match lookupMember ms "servers" with
    | some (.arr elems) => serversOfJson elems
    | _ => none
  | _ => none

/-- Reading the backing-file text back into a record list, as Config.load
does via JSON.parse. -/
def parseConfigFile (s : String) : Option (List ConfigServer) :=
  (parseJsonText s).bind configOfJson

/-- Config.load from src/config.ts lines 26-36: replace the in-memory list
with the parsed file content; a failed read or parse raises LOAD_ERROR. -/
def loadOp (st : ConfigState) : ConfigState × Option ConfigError :=
  match parseConfigFile st.file with
  | some servers => ({ st with servers := servers }, none)
  | none => (st, some ⟨"Config file not found or cannot be read", .loadError⟩)

/-- Shape of one parsed record as JSON value: the object written by
serializeServerL. -/
def serverJson (s : ConfigServer) : JsonVal :=
  JsonVal.obj [("name", JsonVal.str s.name), ("path", JsonVal.str s.path),
    ("java", JsonVal.str s.java), ("type", JsonVal.str s.type.str)]

/-- Shape of the whole saved config as JSON value. -/
def configJson (servers : List ConfigServer) : JsonVal :=
  JsonVal.obj [("servers", JsonVal.arr (servers.map serverJson))]

/-! ### First-boot supervisor stdout classification (src/core.ts, runServerFirst)

runServerFirst attaches a stdout data handler: a chunk whose trimmed text
matches the ready regex (Done \(.*\)! For help, type "help") schedules a
write of "stop\n" to the child's stdin after a fixed 5000 ms setTimeout; else
a match of the Chunk IO regex or the Thread Pool regex writes "a\n" at once.
The three regexes are unanchored tests, so they hold exactly when the text
contains the literal fragments with, for the ready pattern, no line terminator
between them (a dot in a JavaScript regex matches everything except the four
LineTerminator code points). -/

/-- Whitespace in the sense of JavaScript String.prototype.trim: the
ECMAScript WhiteSpace code points (tab, vertical tab, form feed, space,
no-break space, zero width no-break space, and the Unicode space separators)
together with the four LineTerminator code points. -/
def isJsWs (c : Char) : Bool :=
  c = '\t' || c = '\n' || c = '\x0b' || c = '\x0c' || c = '\r' || c = ' ' ||
  c = '\u00A0' || c = '\u1680' ||
  (decide (0x2000 ≤ c.toNat) && decide (c.toNat ≤ 0x200A)) ||
  c = '\u2028' || c = '\u2029' || c = '\u202F' || c = '\u205F' || c = '\u3000' ||
  c = '\uFEFF'

/-- String.prototype.trim on a character sequence. -/
def trimWs (l : List Char) : List Char :=
  ((l.dropWhile isJsWs).reverse.dropWhile isJsWs).reverse

/-- String.prototype.split with a one-character separator (the source only
splits on the newline and the equals sign). -/
def splitOnC (sep : Char) : List Char → List (List Char)
  | [] => [[]]
  | c :: cs =>
    let r := splitOnC sep cs
    if c = sep then [] :: r
    else
      match r with
      | [] => [[c]]
      | h :: t => (c :: h) :: t

/-- Lines of a file in the sense of split("\n"). -/
def splitLines (s : String) : List String :=
  (splitOnC '\n' s.data).map String.mk

/-- List-of-characters prefix test. -/
def hasPrefixL : List Char → List Char → Bool
  | [], _ => true
  | _ :: _, [] => false
  | p :: ps, c :: cs => p = c && hasPrefixL ps cs

/-- Substring containment, the semantics of an unanchored regex test of a
literal pattern. -/
def containsSub (l pat : List Char) : Bool :=
  hasPrefixL pat l ||
  (match l with
   | [] => false
   | _ :: tl => containsSub tl pat)

/-- Left fragment of the ready regex. -/
def doneL : List Char := "Done (".data

/-- Right fragment of the ready regex. -/
def doneR : List Char := (")! For help, type " ++ "\"help\"").data

/-- Characters a JavaScript regular-expression dot does not match: the
LineTerminator code points LF, CR, LINE SEPARATOR and PARAGRAPH SEPARATOR. -/
def isLineTerminator (c : Char) : Bool :=
  c = '\n' || c = '\r' || c = '\u2028' || c = '\u2029'

/-- After a match of the left fragment: search for the right fragment before
the first line terminator (the dot between the fragments cannot cross one). -/
def doneFrom (l : List Char) : Bool :=
  if hasPrefixL doneR l then true
  else
    match l with
    | [] => false
    | c :: tl => if isLineTerminator c then false else doneFrom tl

/-- Test of the ready regex .*Done \(.*\)! For help, type "help" on a text:
some position starts the left fragment, followed with no intervening newline
by the right fragment. -/
def regexDoneTest (l : List Char) : Bool :=
  (hasPrefixL doneL l && doneFrom (l.drop doneL.length)) ||
  (match l with
   | [] => false
   | _ :: tl => regexDoneTest tl)

/-- Test of the Chunk IO regex .*Flushing Chunk IO. -/
def regexChunkIOTest (l : List Char) : Bool :=
  containsSub l "Flushing Chunk IO".data

/-- Test of the Thread Pool regex .*Closing Thread Pool. -/
def regexThreadPoolTest (l : List Char) : Bool :=
  containsSub l "Closing Thread Pool".data

/-- One write to the child's stdin issued by the stdout handler: either the
graceful stop command scheduled behind a delay, or an immediate keystroke. -/
inductive SupWrite where
  | scheduledStop (delayMs : Nat) (text : String)
  | keystroke (text : String)
  deriving DecidableEq, Repr

/-- Stdout data handler of runServerFirst (src/core.ts lines 440-455): the
ready pattern schedules one stop write after 5000 ms; otherwise the two stall
patterns each write one keystroke; the branches are an if/else-if chain on the
trimmed chunk text. -/
def handleStdoutChunk (chunk : String) : List SupWrite :=
  let t := trimWs chunk.data
  if regexDoneTest t then [SupWrite.scheduledStop 5000 "stop\n"]
  else if regexChunkIOTest t then [SupWrite.keystroke "a\n"]
  else if regexThreadPoolTest t then [SupWrite.keystroke "a\n"]
  else []

/-- All stdin writes issued over a whole sequence of stdout chunks. -/
def firstRunWrites (chunks : List String) : List SupWrite :=
  match chunks with
  | [] => []
  | c :: rest => handleStdoutChunk c ++ firstRunWrites rest

/-- Number of scheduled stop writes over a run. -/
def scheduledStopCount (chunks : List String) : Nat :=
  (firstRunWrites chunks).count (SupWrite.scheduledStop 5000 "stop\n")

/-! ### server.properties parsing and rewriting (src/core.ts)

parseProperties splits the file on newlines, skips empty lines and lines
starting with #, splits each remaining line on "=", trims key and value, and
stores the pair in a JavaScript object when both are non-empty after trimming.
A line with no "=" at all crashes: value is undefined and value.trim() throws,
modelled as an error result. The properties flow of manageServers then sets
one key and rewrites the file as Object.entries joined by newlines, so only
parsed pairs survive. Object.entries enumerates canonical array-index keys
first in ascending numeric order, then the remaining string keys in insertion
order; jsEntries below models that enumeration. -/

/-- Assignment obj[k] = v on a JavaScript object modelled as an ordered
association list: replace in place if the key exists, else append. -/
def jsObjSet (ps : List (String × String)) (k v : String) : List (String × String) :=
  match ps with
  | [] => [(k, v)]
  | (k0, v0) :: rest =>
    if k0 = k then (k0, v) :: rest
    else (k0, v0) :: jsObjSet rest k v

/-- One line of parseProperties: skip, store a pair, or crash on a line with
no equals sign. -/
def parsePropLine (ps : List (String × String)) (line : String) :
    Except Unit (List (String × String)) :=
  if line = "" then .ok ps
  else if headIs '#' line.data then .ok ps
  else
    match splitOnC '=' line.data with
    | [] => .ok ps
    | [_] => .error ()
    | k :: v :: _ =>
      let key := String.mk (trimWs k)
      let value := String.mk (trimWs v)
      if key ≠ "" ∧ value ≠ "" then .ok (jsObjSet ps key value) else .ok ps

/-- Fold of parsePropLine over the lines. -/
def parsePropLines (ps : List (String × String)) :
    List String → Except Unit (List (String × String))
  | [] => .ok ps
  | line :: rest =>
    match parsePropLine ps line with
    | .ok ps2 => parsePropLines ps2 rest
    | .error e => .error e

/-- parseProperties from src/core.ts lines 919-934. -/
def parseProperties (content : String) : Except Unit (List (String × String)) :=
  parsePropLines [] (splitLines content)

/-- Array.prototype.join with newline separator. -/
def joinNL : List String → String
  | [] => ""
  | [x] => x
  | x :: y :: ys => x ++ "\n" ++ joinNL (y :: ys)

/-- Numeric value of a digit string. -/
def digitsToNat (l : List Char) : Nat :=
  l.foldl (fun acc c => acc * 10 + (c.toNat - 48)) 0

/-- Whether a property key is a canonical array index in the sense of
JavaScript ordinary-object enumeration: a non-empty decimal digit string with
no leading zero (other than the string 0 itself) whose value is below
2^32 - 1. -/
def isArrayIndex (s : String) : Bool :=
  match s.data with
  | [] => false
  | c :: rest =>
    (c :: rest).all (fun d => decide ('0' ≤ d) && decide (d ≤ '9')) &&
    (decide (c ≠ '0') || rest.isEmpty) &&
    decide (digitsToNat (c :: rest) < 4294967295)

/-- Insertion step of the ascending numeric ordering of array-index keys. -/
def insertByIdx (kv : String × String) :
    List (String × String) → List (String × String)
  | [] => [kv]
  | kv0 :: rest =>
    if digitsToNat kv.1.data ≤ digitsToNat kv0.1.data then kv :: kv0 :: rest
    else kv0 :: insertByIdx kv rest

/-- Sort the array-index entries by ascending numeric key value. -/
def sortByIdx : List (String × String) → List (String × String)
  | [] => []
  | kv :: rest => insertByIdx kv (sortByIdx rest)

/-- Object.entries enumeration order on an object modelled as an ordered
association list: canonical array-index keys first in ascending numeric
order, then the remaining keys in insertion order. -/
def jsEntries (ps : List (String × String)) : List (String × String) :=
  sortByIdx (ps.filter (fun kv => isArrayIndex kv.1)) ++
    ps.filter (fun kv => !isArrayIndex kv.1)

/-- Serialization step of the properties flow: Object.entries mapped to
key=value lines joined by newlines. -/
def serializeProps (ps : List (String × String)) : String :=
  joinNL ((jsEntries ps).map (fun kv => kv.1 ++ "=" ++ kv.2))

/-- The PROPERTIES action of manageServers (src/core.ts lines 878-885): parse
the file, set the selected property to the new value, and write back the
serialized entries. -/
def editProperty (content prop value : String) : Except Unit String :=
  match parseProperties content with
  | .ok ps => .ok (serializeProps (jsObjSet ps prop value))
  | .error e => .error e

/-! ### Managed-server deletion (src/core.ts, manageServers DELETE branch)

The DELETE action asks a delete-intent confirmation, then a path confirmation;
only with both accepted does it enter the guarded block that checks that the
path exists, rejects paths containing "..", removes the directory tree with
rmSync, and removes the registry record (which itself rewrites the backing
file and can fail on the write, this failure being caught and logged). Both
prompts are modelled as boolean inputs, the file system as the list of
existing paths. -/

/-- State touched by the deletion flow: on-disk paths plus the registry. -/
structure DeleteEnv where
  dirs : List String
  cfg : ConfigState
  deriving DecidableEq, Repr

/-- Is sub a substring of s (String.prototype.includes). -/
def strIncludes (s sub : String) : Bool :=
  containsSub s.data sub.data

/-- The DELETE branch of manageServers (src/core.ts lines 888-913). -/
def deleteServerFlow (confirmDelete confirmPath : Bool) (name : String)
    (server : ConfigServer) (writeOk : Bool) (st : DeleteEnv) : DeleteEnv :=
  if confirmDelete then
    if confirmPath then
      if server.path ∈ st.dirs then
        if strIncludes server.path ".." then st
        else
          let dirs2 := st.dirs.filter
            (fun d => d ≠ server.path ∧ ¬ (server.path ++ "/").isPrefixOf d)
          { dirs := dirs2, cfg := (removeServerOp writeOk st.cfg name).1 }
      else st
    else st
  else st

/-! ### Downloader and version resolvers

The current revision of src/downloadUtils.ts is not present under src: the
checked-in copy is an older revision whose downloadFile takes two arguments
and throws plain Error, while the present callers import from it DownloadError,
DownloadErrorCodes, getDownloadURL and getLatestVersion (src/cli.ts lines
21 and 192-210) and call downloadFile with a display-name third argument
(src/core.ts line 572). The definitions below therefore model the missing
module from the spec, keeping the error-code names evidenced by the callers
and the URL shapes evidenced by the older revisions. -/

/-- DownloadErrorCodes of the current downloadUtils.ts, as imported and
matched by src/cli.ts: VERSION_NOT_FOUND, DESTINATION_NOT_FOUND, NO_BUILDS,
UNSUPPORTED_TYPE. -/
inductive DownloadErrorCode where
  | versionNotFound
  | destinationNotFound
  | noBuilds
  | unsupportedType
  deriving DecidableEq, Repr

/-- DownloadError of the current downloadUtils.ts: message and code. -/
structure DownloadError where
  message : String
  code : DownloadErrorCode
  deriving DecidableEq, Repr

/-- Transport-level failure of the HTTP client: a response with an error
status, or another failure (network, DNS, ...). -/
inductive TransportError where
  | httpStatus (code : Nat)
  | other (msg : String)
  deriving DecidableEq, Repr

/-- Outcome of the streamed body transfer: the source stream either ends or
fails, the destination write either completes or fails. -/
structure StreamOutcome where
  readOk : Bool
  writeOk : Bool
  deriving DecidableEq, Repr

/-- Environment of one downloadFile call: whether the destination's parent
directory exists, and what the GET would yield. -/
structure DlWorld where
  parentExists : Bool
  response : Except TransportError StreamOutcome
  deriving Repr

/-- Failure of a downloadFile call: a typed DownloadError, an unwrapped
transport error, or a stream failure distinguishing the failed side. -/
inductive DlFailure where
  | dl (e : DownloadError)
  | transport (e : TransportError)
  | readFailure
  | writeFailure
  deriving DecidableEq, Repr

/-- Modelled from the spec: downloadFile of the current downloadUtils.ts,
which is missing from src (only its callers are present). Checks the
destination's parent directory before any network request (DestinationNotFound),
maps an upstream 404 to VersionNotFound, propagates any other transport error
unwrapped, and on a streamed response resolves only when the source stream has
ended and the destination write has completed, reporting a write failure
distinguishably from a read failure. The first component counts network
requests issued. -/
def downloadFileModel (w : DlWorld) : Nat × Except DlFailure Unit :=
  if ¬ w.parentExists then
    (0, .error (.dl ⟨"Destination directory does not exist.", .destinationNotFound⟩))
  else
    match w.response with
    | .error (.httpStatus 404) =>
      (1, .error (.dl ⟨"Version not found.", .versionNotFound⟩))
    | .error e => (1, .error (.transport e))
    | .ok out =>
      if ¬ out.writeOk then (1, .error .writeFailure)
      else if ¬ out.readOk then (1, .error .readFailure)
      else (1, .ok ())

/-- Modelled from the spec: the Paper branch of getDownloadURL. The build list
of the selected version is fetched; an empty list fails NO_BUILDS; otherwise
the last listed build (builds[builds.length - 1], as in the older revision
DownloadUtils.getPaperUrl) is authoritative and the download URL is built from
the fixed path template. -/
def paperUrlTemplate (version : String) (build : Nat) : String :=
  "https://api.papermc.io/v2/projects/paper/versions/" ++ version ++ "/builds/" ++
    toString build ++ "/downloads/paper-" ++ version ++ "-" ++ toString build ++ ".jar"

/-- Modelled from the spec: Paper resolution for a selected version given its
upstream build list. -/
def getPaperUrl (builds : List Nat) (version : String) : Except DownloadError String :=
  match builds.getLast? with
  | none => .error ⟨"No builds available for this version.", .noBuilds⟩
  | some b => .ok (paperUrlTemplate version b)

/-- The URL template interpolated by the older revision src/unnamed/part_000
DownloadUtils.getPaperUrl: note its host is papermc.io/api, unlike the
api.papermc.io host of the build-list request and of the current template. -/
def part000UrlTemplate (version : String) (build : String) : String :=
  "https://papermc.io/api/v2/projects/paper/versions/" ++ version ++ "/builds/" ++
    build ++ "/downloads/paper-" ++ version ++ "-" ++ build ++ ".jar"

/-- The older revision src/unnamed/part_000 DownloadUtils.getPaperUrl builds
the URL from builds[builds.length - 1] with no emptiness check: on an empty
list the index is undefined and the literal text undefined is interpolated. -/
def part000_getPaperUrl (builds : List Nat) (version : String) : String :=
  match builds.getLast? with
  | some b => part000UrlTemplate version (toString b)
  | none => part000UrlTemplate version "undefined"

/-- One entry of the Vanilla version manifest: id and per-version metadata URL
(an absent URL is the empty string, the falsy value of the source check). -/
structure VanillaEntry where
  id : String
  url : String
  deriving DecidableEq, Repr

/-- The Vanilla version manifest: versions array plus latest.release. -/
structure VanillaManifest where
  latestRelease : String
  versions : List VanillaEntry
  deriving DecidableEq, Repr

/-- Environment of a Vanilla resolution: the manifest and, for each metadata
URL, the server-artifact URL (downloads.server.url) of the fetched metadata. -/
structure VanillaWorld where
  manifest : VanillaManifest
  serverUrlOf : String → String

/-- Modelled from the spec: the Vanilla branch of getDownloadURL. Latest
resolves to the manifest's recorded latest-release id (the selection pattern
present in src JavaUtils.getJavaForMCVersion), otherwise the exact id is
matched; a missing entry or an entry with a falsy metadata URL fails
VERSION_NOT_FOUND; otherwise the per-version metadata is fetched and its
server-artifact URL returned. -/
def getVanillaUrl (w : VanillaWorld) (version : String) : Except DownloadError String :=
  let entry := w.manifest.versions.find? (fun v =>
    if version = "latest" then v.id = w.manifest.latestRelease else v.id = version)
  match entry with
  | none => .error ⟨"Version not found.", .versionNotFound⟩
  | some e =>
    if e.url = "" then .error ⟨"Version not found.", .versionNotFound⟩
    else .ok (w.serverUrlOf e.url)

deriving instance DecidableEq for Except

/-! ### Theorems -/

/-! ### Round-trip lemmas: the string-literal grammar -/

theorem parseJStr_quote (r : List Char) : parseJStr ('"' :: r) = some ([], r) := by
  rw [parseJStr.eq_def]
  simp

theorem parseJStr_escCode {e u : Char} (hne : e ≠ 'u') (he : escCode e = some u)
    (r : List Char) :
    parseJStr ('\\' :: e :: r) = (parseJStr r).map (fun p => (u :: p.1, p.2)) := by
  rw [parseJStr.eq_def]
  simp [hne, he]

theorem parseJStr_lit {c : Char} (h1 : c ≠ '"') (h2 : c ≠ '\\') (h3 : ¬ c.toNat < 32)
    (r : List Char) :
    parseJStr (c :: r) = (parseJStr r).map (fun p => (c :: p.1, p.2)) := by
  rw [parseJStr.eq_def]
  simp [h1, h2, h3]

theorem hexVal_hexDigitChar {n : Nat} (h : n < 16) : hexVal (hexDigitChar n) = some n := by
  interval_cases n <;> decide

theorem hex4_00 {c : Char} (h : c.toNat < 32) (r : List Char) :
    hex4 ('0' :: '0' :: hexDigitChar (c.toNat / 16) :: hexDigitChar (c.toNat % 16) :: r) =
      some (c.toNat, r) := by
  have hd : c.toNat / 16 < 16 := by omega
  have hm : c.toNat % 16 < 16 := Nat.mod_lt _ (by norm_num)
  unfold hex4
  simp only [show hexVal '0' = some 0 from by decide, hexVal_hexDigitChar hd,
    hexVal_hexDigitChar hm]
  have he : ((0 * 16 + 0) * 16 + c.toNat / 16) * 16 + c.toNat % 16 = c.toNat := by omega
  rw [he]

theorem parseUni_00 {c : Char} (h : c.toNat < 32) (r : List Char) :
    parseUni ('0' :: '0' :: hexDigitChar (c.toNat / 16) :: hexDigitChar (c.toNat % 16) :: r) =
      some (c, r) := by
  have h1 : ¬(55296 ≤ c.toNat ∧ c.toNat ≤ 56319) := by omega
  have h2 : ¬(56320 ≤ c.toNat ∧ c.toNat ≤ 57343) := by omega
  unfold parseUni
  rw [hex4_00 h]
  simp [h1, h2, Char.ofNat_toNat]

theorem parseJStr_u {c : Char} (h : c.toNat < 32) (r : List Char) :
    parseJStr ('\\' :: 'u' :: '0' :: '0' :: hexDigitChar (c.toNat / 16) ::
        hexDigitChar (c.toNat % 16) :: r) =
      (parseJStr r).map (fun p => (c :: p.1, p.2)) := by
  rw [parseJStr.eq_def]
  simp only [Char.reduceEq, if_false, if_true, reduceIte]
  split
  · rename_i u r1 heq
    rw [parseUni_00 h] at heq
    simp only [Option.some.injEq, Prod.mk.injEq] at heq
    obtain ⟨rfl, rfl⟩ := heq
    rfl
  · rename_i heq
    rw [parseUni_00 h] at heq
    simp at heq

theorem parseJStr_escChar (c : Char) (r : List Char) :
    parseJStr (escChar c ++ r) = (parseJStr r).map (fun p => (c :: p.1, p.2)) := by
  by_cases h1 : c = '"'
  · subst h1
    exact parseJStr_escCode (by decide) (by decide) r
  by_cases h2 : c = '\\'
  · subst h2
    exact parseJStr_escCode (by decide) (by decide) r
  by_cases h3 : c = '\x08'
  · subst h3
    exact parseJStr_escCode (by decide) (by decide) r
  by_cases h4 : c = '\x0c'
  · subst h4
    exact parseJStr_escCode (by decide) (by decide) r
  by_cases h5 : c = '\n'
  · subst h5
    exact parseJStr_escCode (by decide) (by decide) r
  by_cases h6 : c = '\r'
  · subst h6
    exact parseJStr_escCode (by decide) (by decide) r
  by_cases h7 : c = '\t'
  · subst h7
    exact parseJStr_escCode (by decide) (by decide) r
  by_cases h8 : c.toNat < 32
  · rw [show escChar c = ['\\', 'u', '0', '0', hexDigitChar (c.toNat / 16),
        hexDigitChar (c.toNat % 16)] from by
      simp [escChar, h1, h2, h3, h4, h5, h6, h7, h8]]
    exact parseJStr_u h8 r
  · rw [show escChar c = [c] from by simp [escChar, h1, h2, h3, h4, h5, h6, h7, h8]]
    exact parseJStr_lit h1 h2 h8 r

theorem parseJStr_escL (cs : List Char) (r : List Char) :
    parseJStr (escL cs ++ '"' :: r) = some (cs, r) := by
  induction cs with
  | nil => simpa using parseJStr_quote r
  | cons c cs ih =>
    rw [escL, List.append_assoc, parseJStr_escChar, ih]
    rfl

theorem parseJStr_jstr (s : String) (r : List Char) :
    parseJStr (escL s.data ++ '"' :: r) = some (s.data, r) :=
  parseJStr_escL s.data r

/-! ### Round-trip lemmas: values, members, and the whole saved file -/

theorem string_mk_data (s : String) : String.mk s.data = s := by
  cases s
  rfl

theorem parseVal_ws {c : Char} (h : isJsonWs c = true) (f : Nat) (cs : List Char) :
    parseVal (f + 1) (c :: cs) = parseVal (f + 1) cs := by
  show parseVal (Nat.succ f) (c :: cs) = parseVal (Nat.succ f) cs
  rw [parseVal.eq_def]
  conv_rhs => rw [parseVal.eq_def]
  simp only [show skipWs (c :: cs) = skipWs cs from by simp [skipWs, h]]

theorem parseMembers_ws {c : Char} (h : isJsonWs c = true) (f : Nat) (cs : List Char) :
    parseMembers (f + 1) (c :: cs) = parseMembers (f + 1) cs := by
  show parseMembers (Nat.succ f) (c :: cs) = parseMembers (Nat.succ f) cs
  rw [parseMembers.eq_def]
  conv_rhs => rw [parseMembers.eq_def]
  simp only [show skipWs (c :: cs) = skipWs cs from by simp [skipWs, h]]

theorem parseElems_ws {c : Char} (h : isJsonWs c = true) (f : Nat) (cs : List Char) :
    parseElems (f + 1 + 1) (c :: cs) = parseElems (f + 1 + 1) cs := by
  show parseElems (Nat.succ (f + 1)) (c :: cs) = parseElems (Nat.succ (f + 1)) cs
  rw [parseElems.eq_def]
  conv_rhs => rw [parseElems.eq_def]
  simp only [parseVal_ws h f cs]

theorem parseVal_jstr (f : Nat) (s : String) (r : List Char) :
    parseVal (f + 1) (jstrL s ++ r) = some (JsonVal.str s, r) := by
  show parseVal (Nat.succ f) (jstrL s ++ r) = some (JsonVal.str s, r)
  rw [jstrL, parseVal.eq_def]
  simp only [List.cons_append, List.append_assoc, List.nil_append, List.singleton_append]
  rw [show skipWs ('"' :: (escL s.data ++ '"' :: r)) = '"' :: (escL s.data ++ '"' :: r) from by
    simp [skipWs, isJsonWs]]
  simp only [Char.reduceEq, reduceIte, parseJStr_escL s.data r]
  simp [string_mk_data]

theorem skipWs_sp (cs : List Char) : skipWs (' ' :: cs) = skipWs cs := by
  simp [skipWs, isJsonWs]

theorem skipWs_nl (cs : List Char) : skipWs ('\n' :: cs) = skipWs cs := by
  simp [skipWs, isJsonWs]

theorem skipWs_stop {c : Char} (h : isJsonWs c = false) (cs : List Char) :
    skipWs (c :: cs) = c :: cs := by
  simp [skipWs, h]

theorem parseVal_sp (f : Nat) (cs : List Char) :
    parseVal (f + 1) (' ' :: cs) = parseVal (f + 1) cs :=
  parseVal_ws (by decide) f cs

theorem parseVal_nl (f : Nat) (cs : List Char) :
    parseVal (f + 1) ('\n' :: cs) = parseVal (f + 1) cs :=
  parseVal_ws (by decide) f cs

theorem parseMembers_sp (f : Nat) (cs : List Char) :
    parseMembers (f + 1) (' ' :: cs) = parseMembers (f + 1) cs :=
  parseMembers_ws (by decide) f cs

theorem parseMembers_nl (f : Nat) (cs : List Char) :
    parseMembers (f + 1) ('\n' :: cs) = parseMembers (f + 1) cs :=
  parseMembers_ws (by decide) f cs

theorem parseElems_nl (f : Nat) (cs : List Char) :
    parseElems (f + 1 + 1) ('\n' :: cs) = parseElems (f + 1 + 1) cs :=
  parseElems_ws (by decide) f cs

theorem parseMembers_strMember (F f : Nat) (hF : F = f + 1 + 1) (key vs : String)
    (r : List Char) (hkey : escL key.data = key.data) :
    parseMembers F ('"' :: (key.data ++ '"' :: ':' :: ' ' :: (jstrL vs ++ r))) =
      (match skipWs r with
       | ',' :: cs5 =>
         (parseMembers (f + 1) cs5).map (fun p => ((key, JsonVal.str vs) :: p.1, p.2))
       | '\x7d' :: cs5 => some ([(key, JsonVal.str vs)], cs5)
       | _ => none) := by
  have hp : parseJStr (key.data ++ '"' :: ':' :: ' ' :: (jstrL vs ++ r)) =
      some (key.data, ':' :: ' ' :: (jstrL vs ++ r)) := by
    conv_lhs => rw [← hkey]
    exact parseJStr_escL key.data _
  subst hF
  show parseMembers (Nat.succ (f + 1)) _ = _
  rw [parseMembers.eq_def]
  simp only [skipWs_stop (show isJsonWs '"' = false from by decide),
    skipWs_stop (show isJsonWs ':' = false from by decide), hp,
    parseVal_sp, parseVal_jstr, string_mk_data]

theorem seg_name : "    \x7b\n      \"name\": ".data =
    [' ', ' ', ' ', ' ', '\x7b', '\n', ' ', ' ', ' ', ' ', ' ', ' ', '"'] ++
    "name".data ++ ['"', ':', ' '] := rfl

theorem seg_path : ",\n      \"path\": ".data =
    [',', '\n', ' ', ' ', ' ', ' ', ' ', ' ', '"'] ++ "path".data ++ ['"', ':', ' '] := rfl

theorem seg_java : ",\n      \"java\": ".data =
    [',', '\n', ' ', ' ', ' ', ' ', ' ', ' ', '"'] ++ "java".data ++ ['"', ':', ' '] := rfl

theorem seg_type : ",\n      \"type\": ".data =
    [',', '\n', ' ', ' ', ' ', ' ', ' ', ' ', '"'] ++ "type".data ++ ['"', ':', ' '] := rfl

theorem seg_close : "\n    \x7d".data = ['\n', ' ', ' ', ' ', ' ', '\x7d'] := rfl

theorem parseMembers_nameMember (F f : Nat) (hF : F = f + 1 + 1) (vs : String)
    (r : List Char) :
    parseMembers F ('"' :: 'n' :: 'a' :: 'm' :: 'e' :: '"' :: ':' :: ' ' :: (jstrL vs ++ r)) =
      (match skipWs r with
       | ',' :: cs5 =>
         (parseMembers (f + 1) cs5).map (fun p => (("name", JsonVal.str vs) :: p.1, p.2))
       | '\x7d' :: cs5 => some ([("name", JsonVal.str vs)], cs5)
       | _ => none) :=
  parseMembers_strMember F f hF "name" vs r (by decide)

theorem parseMembers_pathMember (F f : Nat) (hF : F = f + 1 + 1) (vs : String)
    (r : List Char) :
    parseMembers F ('"' :: 'p' :: 'a' :: 't' :: 'h' :: '"' :: ':' :: ' ' :: (jstrL vs ++ r)) =
      (match skipWs r with
       | ',' :: cs5 =>
         (parseMembers (f + 1) cs5).map (fun p => (("path", JsonVal.str vs) :: p.1, p.2))
       | '\x7d' :: cs5 => some ([("path", JsonVal.str vs)], cs5)
       | _ => none) :=
  parseMembers_strMember F f hF "path" vs r (by decide)

theorem parseMembers_javaMember (F f : Nat) (hF : F = f + 1 + 1) (vs : String)
    (r : List Char) :
    parseMembers F ('"' :: 'j' :: 'a' :: 'v' :: 'a' :: '"' :: ':' :: ' ' :: (jstrL vs ++ r)) =
      (match skipWs r with
       | ',' :: cs5 =>
         (parseMembers (f + 1) cs5).map (fun p => (("java", JsonVal.str vs) :: p.1, p.2))
       | '\x7d' :: cs5 => some ([("java", JsonVal.str vs)], cs5)
       | _ => none) :=
  parseMembers_strMember F f hF "java" vs r (by decide)

theorem parseMembers_typeMember (F f : Nat) (hF : F = f + 1 + 1) (vs : String)
    (r : List Char) :
    parseMembers F ('"' :: 't' :: 'y' :: 'p' :: 'e' :: '"' :: ':' :: ' ' :: (jstrL vs ++ r)) =
      (match skipWs r with
       | ',' :: cs5 =>
         (parseMembers (f + 1) cs5).map (fun p => (("type", JsonVal.str vs) :: p.1, p.2))
       | '\x7d' :: cs5 => some ([("type", JsonVal.str vs)], cs5)
       | _ => none) :=
  parseMembers_strMember F f hF "type" vs r (by decide)

theorem parseVal_server (F f : Nat) (hF : F = f + 6) (s : ConfigServer) (r : List Char) :
    parseVal F (serializeServerL s ++ r) = some (serverJson s, r) := by
  subst hF
  rw [serializeServerL, seg_name, seg_path, seg_java, seg_type, seg_close]
  simp only [List.cons_append, List.append_assoc, List.nil_append]
  rw [show f + 6 = f + 5 + 1 from rfl]
  simp only [parseVal_sp]
  show parseVal (Nat.succ (f + 5)) _ = _
  rw [parseVal.eq_def]
  simp only [skipWs_stop (show isJsonWs '\x7b' = false from by decide),
    skipWs_nl, skipWs_sp, skipWs_stop (show isJsonWs '"' = false from by decide),
    headIs, Char.reduceEq, reduceIte, decide_False, Bool.false_eq_true, if_false]
  rw [show f + 5 = f + 4 + 1 from rfl]
  simp only [parseMembers_nl, parseMembers_sp]
  rw [parseMembers_nameMember (f + 4 + 1) (f + 3) rfl s.name]
  simp only [skipWs_stop (show isJsonWs ',' = false from by decide)]
  simp only [parseMembers_nl, parseMembers_sp]
  rw [parseMembers_pathMember (f + 3 + 1) (f + 2) rfl s.path]
  simp only [skipWs_stop (show isJsonWs ',' = false from by decide)]
  simp only [parseMembers_nl, parseMembers_sp]
  rw [parseMembers_javaMember (f + 2 + 1) (f + 1) rfl s.java]
  simp only [skipWs_stop (show isJsonWs ',' = false from by decide)]
  simp only [parseMembers_nl, parseMembers_sp]
  rw [parseMembers_typeMember (f + 1 + 1) f rfl s.type.str]
  simp only [skipWs_nl, skipWs_sp, skipWs_stop (show isJsonWs '\x7d' = false from by decide)]
  simp [serverJson]

theorem seg_comma : ",\n".data = [',', '\n'] := rfl

theorem parseElems_ws_flex {c : Char} (h : isJsonWs c = true) (G g : Nat) (hG : G = g + 2)
    (cs : List Char) : parseElems G (c :: cs) = parseElems G cs := by
  subst hG
  exact parseElems_ws h g cs

theorem parseElems_servers (ss : List ConfigServer) :
    ∀ (F f : Nat), ss ≠ [] → F = f + 6 + ss.length → ∀ (r : List Char),
    parseElems F (joinItemsL (ss.map serializeServerL) ++ ('\n' :: ' ' :: ' ' :: ']' :: r)) =
      some (ss.map serverJson, r) := by
  induction ss with
  | nil =>
    intro F f hne
    exact absurd rfl hne
  | cons s rest ih =>
    intro F f hne hF r
    cases rest with
    | nil =>
      subst hF
      simp only [List.map, joinItemsL, List.length_cons, List.length_nil]
      show parseElems (Nat.succ (f + 6)) _ = _
      rw [parseElems.eq_def]
      simp only [parseVal_server (f + 6) f rfl s, skipWs_nl, skipWs_sp,
        skipWs_stop (show isJsonWs ']' = false from by decide)]
    | cons s2 t =>
      subst hF
      simp only [List.map, joinItemsL, List.length_cons, seg_comma]
      simp only [List.cons_append, List.append_assoc, List.nil_append]
      show parseElems (Nat.succ (f + 6 + ((s2 :: t).length))) _ = _
      rw [parseElems.eq_def]
      simp only [parseVal_server (f + 6 + (s2 :: t).length) (f + (s2 :: t).length) (by omega) s]
      simp only [skipWs_stop (show isJsonWs ',' = false from by decide)]
      rw [parseElems_ws_flex (show isJsonWs '\n' = true from by decide)
        (f + 6 + (s2 :: t).length) (f + 4 + (s2 :: t).length) (by omega)]
      simp only [← List.map_cons]
      rw [ih (f + 6 + (s2 :: t).length) f (by simp) (by simp) r]
      simp [List.map]

theorem seg_top : "\x7b\n  \"servers\": ".data =
    ['\x7b', '\n', ' ', ' ', '"'] ++ "servers".data ++ ['"', ':', ' '] := rfl

theorem seg_end : "\n\x7d".data = ['\n', '\x7d'] := rfl

theorem seg_arrOpen : "[\n".data = ['[', '\n'] := rfl

theorem seg_arrClose : "\n  ]".data = ['\n', ' ', ' ', ']'] := rfl

theorem seg_emptyArr : "[]".data = ['[', ']'] := rfl

theorem headIs_skipWs_server (s : ConfigServer) (B : List Char) :
    headIs ']' (skipWs (serializeServerL s ++ B)) = false := by
  rw [serializeServerL, seg_name, seg_path, seg_java, seg_type, seg_close]
  simp only [List.cons_append, List.append_assoc, List.nil_append, skipWs_sp,
    skipWs_stop (show isJsonWs '\x7b' = false from by decide)]
  simp [headIs]

theorem headIs_skipWs_join (s : ConfigServer) (t : List ConfigServer) (A : List Char) :
    headIs ']' (skipWs ('\n' :: (joinItemsL ((s :: t).map serializeServerL) ++ A))) = false := by
  rw [skipWs_nl]
  cases t with
  | nil =>
    simp only [List.map, joinItemsL]
    exact headIs_skipWs_server s A
  | cons s2 tt =>
    simp only [List.map, joinItemsL, seg_comma, List.cons_append, List.append_assoc,
      List.nil_append]
    exact headIs_skipWs_server s _

theorem parseMembers_serversMember (F f : Nat) (hF : F = f + 1) (rest : List Char) :
    parseMembers F ('"' :: 's' :: 'e' :: 'r' :: 'v' :: 'e' :: 'r' :: 's' :: '"' :: ':' ::
        ' ' :: rest) =
      (match parseVal f (' ' :: rest) with
       | none => none
       | some (v, cs4) =>
         match skipWs cs4 with
         | ',' :: cs5 => (parseMembers f cs5).map (fun p => (("servers", v) :: p.1, p.2))
         | '\x7d' :: cs5 => some ([("servers", v)], cs5)
         | _ => none) := by
  subst hF
  have hkey : parseJStr ('s' :: 'e' :: 'r' :: 'v' :: 'e' :: 'r' :: 's' :: '"' :: ':' ::
      ' ' :: rest) = some ("servers".data, ':' :: ' ' :: rest) :=
    parseJStr_escL "servers".data (':' :: ' ' :: rest)
  show parseMembers (Nat.succ f) _ = _
  rw [parseMembers.eq_def]
  simp only [skipWs_stop (show isJsonWs '"' = false from by decide), hkey,
    skipWs_stop (show isJsonWs ':' = false from by decide), string_mk_data]

theorem parseVal_config (servers : List ConfigServer) (F f : Nat)
    (hF : F = f + servers.length + 9) :
    parseVal F (serializeConfigL servers) = some (configJson servers, []) := by
  subst hF
  cases servers with
  | nil =>
    simp only [serializeConfigL, arrPartL, seg_top, seg_end, List.length_nil, seg_emptyArr,
      List.cons_append, List.append_assoc, List.nil_append]
    show parseVal (Nat.succ (f + 0 + 8)) _ = _
    rw [parseVal.eq_def]
    simp only [skipWs_stop (show isJsonWs '\x7b' = false from by decide), Char.reduceEq,
      reduceIte, skipWs_nl, skipWs_sp, skipWs_stop (show isJsonWs '"' = false from by decide),
      headIs, decide_False, Bool.false_eq_true, if_false]
    rw [show f + 0 + 8 = f + 0 + 7 + 1 from rfl]
    simp only [parseMembers_nl, parseMembers_sp]
    rw [parseMembers_serversMember (f + 0 + 7 + 1) (f + 0 + 7) rfl]
    rw [show f + 0 + 7 = f + 0 + 6 + 1 from rfl]
    simp only [parseVal_sp]
    rw [parseVal.eq_def]
    simp only [skipWs_stop (show isJsonWs '[' = false from by decide), Char.reduceEq,
      reduceIte, skipWs_stop (show isJsonWs ']' = false from by decide), headIs,
      decide_True, if_true, List.tail_cons, skipWs_nl,
      skipWs_stop (show isJsonWs '\x7d' = false from by decide)]
    simp [configJson]
  | cons s t =>
    simp only [serializeConfigL, arrPartL, seg_top, seg_end, List.length_cons, seg_arrOpen,
      seg_arrClose, List.cons_append, List.append_assoc, List.nil_append]
    show parseVal (Nat.succ (f + (t.length + 1) + 8)) _ = _
    rw [parseVal.eq_def]
    simp only [skipWs_stop (show isJsonWs '\x7b' = false from by decide), Char.reduceEq,
      reduceIte, skipWs_nl, skipWs_sp, skipWs_stop (show isJsonWs '"' = false from by decide),
      headIs, decide_False, Bool.false_eq_true, if_false]
    rw [show f + (t.length + 1) + 8 = f + (t.length + 1) + 7 + 1 from rfl]
    simp only [parseMembers_nl, parseMembers_sp]
    rw [parseMembers_serversMember (f + (t.length + 1) + 7 + 1) (f + (t.length + 1) + 7) rfl]
    rw [show f + (t.length + 1) + 7 = f + (t.length + 1) + 6 + 1 from rfl]
    simp only [parseVal_sp]
    rw [parseVal.eq_def]
    simp only [skipWs_stop (show isJsonWs '[' = false from by decide), Char.reduceEq,
      reduceIte, headIs_skipWs_join s t, Bool.false_eq_true, if_false]
    rw [parseElems_ws_flex (show isJsonWs '\n' = true from by decide)
      (f + (t.length + 1) + 6) (f + (t.length + 1) + 4) (by omega)]
    rw [parseElems_servers (s :: t) (f + (t.length + 1) + 6) f (by simp)
      (by simp only [List.length_cons]; omega) ('\n' :: '\x7d' :: [])]
    simp [configJson, skipWs_nl, skipWs_stop (show isJsonWs '\x7d' = false from by decide)]

theorem serverOfJson_serverJson (s : ConfigServer) : serverOfJson (serverJson s) = some s := by
  cases s with
  | mk n p j ty =>
    cases ty <;>
      simp [serverOfJson, serverJson, lookupMember, serverTypeOfString, ServerType.str]

theorem serversOfJson_map (l : List ConfigServer) :
    serversOfJson (l.map serverJson) = some l := by
  induction l with
  | nil => rfl
  | cons s t ih => simp [serversOfJson, serverOfJson_serverJson, ih]

theorem configOfJson_configJson (servers : List ConfigServer) :
    configOfJson (configJson servers) = some servers := by
  simp [configOfJson, configJson, lookupMember, serversOfJson_map]

theorem serializeServerL_length (s : ConfigServer) : 1 ≤ (serializeServerL s).length := by
  rw [serializeServerL]
  have h : ("    \x7b\n      \"name\": ".data).length = 20 := by decide
  simp only [List.length_append, List.length_cons, List.length_nil]
  omega

theorem joinItemsL_length (ls : List (List Char)) (h : ∀ x ∈ ls, 1 ≤ x.length) :
    ls.length ≤ (joinItemsL ls).length := by
  induction ls with
  | nil => simp [joinItemsL]
  | cons x t ih =>
    cases t with
    | nil =>
      simp only [joinItemsL, List.length_cons, List.length_nil]
      have := h x (by simp)
      omega
    | cons y ys =>
      simp only [joinItemsL, List.length_append, List.length_cons]
      have h1 := h x (by simp)
      have h2 : (y :: ys).length ≤ (joinItemsL (y :: ys)).length := by
        refine ih ?_
        intro z hz
        exact h z (by simp [hz])
      simp only [List.length_cons] at h2
      have h3 : (",\n".data).length = 2 := by decide
      omega

theorem serializeConfigL_length (servers : List ConfigServer) :
    servers.length + 9 ≤ (serializeConfigL servers).length := by
  rw [serializeConfigL]
  simp only [List.length_append]
  have h1 : ("\x7b\n  \"servers\": ".data).length = 15 := by decide
  have h2 : ("\n\x7d".data).length = 2 := by decide
  cases servers with
  | nil =>
    simp [arrPartL]
  | cons s t =>
    simp only [arrPartL, List.length_append]
    have h3 : ("[\n".data).length = 2 := by decide
    have h4 : ("\n  ]".data).length = 4 := by decide
    have h5 : ((s :: t).map serializeServerL).length ≤
        (joinItemsL ((s :: t).map serializeServerL)).length := by
      refine joinItemsL_length _ ?_
      intro x hx
      obtain ⟨u, -, rfl⟩ := List.mem_map.mp hx
      exact serializeServerL_length u
    simp only [List.length_map, List.length_cons] at h5
    simp only [List.length_cons]
    omega

theorem parseJsonText_config (servers : List ConfigServer) :
    parseJsonText (stringifyConfig servers) = some (configJson servers) := by
  unfold parseJsonText
  have hdata : (stringifyConfig servers).data = serializeConfigL servers := rfl
  rw [hdata]
  have hlen := serializeConfigL_length servers
  rw [show 2 * (serializeConfigL servers).length + 2 =
      (2 * (serializeConfigL servers).length + 2 - servers.length - 9) +
        servers.length + 9 from by omega]
  rw [parseVal_config servers _ _ rfl]
  simp [skipWs]

theorem parseConfigFile_stringify (servers : List ConfigServer) :
    parseConfigFile (stringifyConfig servers) = some servers := by
  simp [parseConfigFile, parseJsonText_config, configOfJson_configJson]

/-! ### Claim theorems -/

/-- Claim C7: for every registry state, saving the registry to its backing
JSON file and then loading it yields a record sequence identical to the saved
one, element for element and in the same order. -/
theorem save_load_roundtrip (st : ConfigState) :
    (loadOp (saveOp true st).1).1.servers = st.servers ∧
    (loadOp (saveOp true st).1).2 = none := by
  simp [saveOp, loadOp, parseConfigFile_stringify]

/-- Claim C9: the on-disk directory is removed and the registry record deleted
only after both the delete-intent confirmation and the path confirmation are
accepted; declining either leaves the on-disk state and the registry
unchanged. -/
theorem delete_requires_two_confirms (confirmDelete confirmPath : Bool) (name : String)
    (server : ConfigServer) (writeOk : Bool) (st : DeleteEnv) :
    (confirmDelete = false →
      deleteServerFlow confirmDelete confirmPath name server writeOk st = st) ∧
    (confirmPath = false →
      deleteServerFlow confirmDelete confirmPath name server writeOk st = st) ∧
    (deleteServerFlow confirmDelete confirmPath name server writeOk st ≠ st →
      confirmDelete = true ∧ confirmPath = true) := by
  cases confirmDelete <;> cases confirmPath <;> simp [deleteServerFlow]

theorem delete_requires_two_confirms_witness :
    deleteServerFlow false true "a" ⟨"a", "/srv/a", "j", .vanilla⟩ true
      ⟨["/srv/a"], ⟨[⟨"a", "/srv/a", "j", .vanilla⟩], ""⟩⟩ =
      ⟨["/srv/a"], ⟨[⟨"a", "/srv/a", "j", .vanilla⟩], ""⟩⟩ :=
  (delete_requires_two_confirms false true "a" ⟨"a", "/srv/a", "j", .vanilla⟩ true
    ⟨["/srv/a"], ⟨[⟨"a", "/srv/a", "j", .vanilla⟩], ""⟩⟩).1 rfl

/-- Claim C2: Paper resolution selects the last element of the build list as
the authoritative build and embeds it in the download URL (the present older
revision getPaperUrl selects the same last build on every non-empty list,
interpolated into its own URL template); an empty build list fails with the
NO_BUILDS code; for the fixture build list it selects 15 because it is last. -/
theorem paper_selects_last_build (version : String) :
    (∀ (builds : List Nat) (b : Nat), builds.getLast? = some b →
      getPaperUrl builds version = .ok (paperUrlTemplate version b) ∧
      part000_getPaperUrl builds version = part000UrlTemplate version (toString b)) ∧
    getPaperUrl [] version =
      .error ⟨"No builds available for this version.", .noBuilds⟩ ∧
    getPaperUrl [10, 11, 15] version = .ok (paperUrlTemplate version 15) := by
  refine ⟨?_, rfl, ?_⟩
  · intro builds b h
    simp [getPaperUrl, part000_getPaperUrl, h]
  · simp [getPaperUrl, show [10, 11, 15].getLast? = some 15 from rfl]

theorem paper_selects_last_build_witness :
    getPaperUrl [10, 11, 15] "1.20.1" = .ok (paperUrlTemplate "1.20.1" 15) ∧
    part000_getPaperUrl [10, 11, 15] "1.20.1" = part000UrlTemplate "1.20.1" (toString 15) :=
  (paper_selects_last_build "1.20.1").1 [10, 11, 15] 15 (by decide)

/-- Claim C4: the downloader fails with DESTINATION_NOT_FOUND before any
network request when the destination's parent directory is absent; an upstream
404 with the directory present fails with VERSION_NOT_FOUND; any other
transport error propagates unwrapped. -/
theorem downloadFile_error_classification (w : DlWorld) :
    (w.parentExists = false →
      downloadFileModel w =
        (0, .error (.dl ⟨"Destination directory does not exist.", .destinationNotFound⟩))) ∧
    (w.parentExists = true → w.response = .error (.httpStatus 404) →
      downloadFileModel w = (1, .error (.dl ⟨"Version not found.", .versionNotFound⟩))) ∧
    (∀ e : TransportError, w.parentExists = true → w.response = .error e →
      e ≠ .httpStatus 404 → downloadFileModel w = (1, .error (.transport e))) := by
  refine ⟨?_, ?_, ?_⟩
  · intro h
    simp [downloadFileModel, h]
  · intro h1 h2
    simp [downloadFileModel, h1, h2]
  · intro e h1 h2 hne
    cases e with
    | httpStatus n =>
      by_cases hn : n = 404
      · exact absurd (by rw [hn]) hne
      · simp [downloadFileModel, h1, h2, hn]
    | other m => simp [downloadFileModel, h1, h2]

theorem downloadFile_error_classification_witness :
    downloadFileModel ⟨false, .error (.other "x")⟩ =
      (0, .error (.dl ⟨"Destination directory does not exist.", .destinationNotFound⟩)) ∧
    downloadFileModel ⟨true, .error (.httpStatus 404)⟩ =
      (1, .error (.dl ⟨"Version not found.", .versionNotFound⟩)) ∧
    downloadFileModel ⟨true, .error (.other "timeout")⟩ =
      (1, .error (.transport (.other "timeout"))) :=
  ⟨(downloadFile_error_classification ⟨false, .error (.other "x")⟩).1 rfl,
   (downloadFile_error_classification ⟨true, .error (.httpStatus 404)⟩).2.1 rfl rfl,
   (downloadFile_error_classification ⟨true, .error (.other "timeout")⟩).2.2
     (.other "timeout") rfl rfl (by simp)⟩

/-- Claim C5: the downloader resolves successfully exactly when the source
stream has ended and the destination write has completed, and a write failure
is reported distinguishably from a read failure. -/
theorem downloadFile_completion (w : DlWorld) (out : StreamOutcome)
    (h1 : w.parentExists = true) (h2 : w.response = .ok out) :
    ((downloadFileModel w).2 = .ok () ↔ out.readOk = true ∧ out.writeOk = true) ∧
    (out.writeOk = false → (downloadFileModel w).2 = .error .writeFailure) ∧
    (out.writeOk = true → out.readOk = false →
      (downloadFileModel w).2 = .error .readFailure) ∧
    DlFailure.writeFailure ≠ DlFailure.readFailure := by
  refine ⟨?_, ?_, ?_, by simp⟩
  · cases hw : out.writeOk <;> cases hr : out.readOk <;>
      simp [downloadFileModel, h1, h2, hw, hr]
  · intro hw
    simp [downloadFileModel, h1, h2, hw]
  · intro hw hr
    simp [downloadFileModel, h1, h2, hw, hr]

theorem downloadFile_completion_witness :
    ((downloadFileModel ⟨true, .ok ⟨true, true⟩⟩).2 = .ok () ↔
      (true : Bool) = true ∧ (true : Bool) = true) ∧
    (downloadFileModel ⟨true, .ok ⟨true, false⟩⟩).2 = .error .writeFailure :=
  ⟨(downloadFile_completion ⟨true, .ok ⟨true, true⟩⟩ ⟨true, true⟩ rfl rfl).1,
   (downloadFile_completion ⟨true, .ok ⟨true, false⟩⟩ ⟨true, false⟩ rfl rfl).2.1 rfl⟩

/-- Claim C8: Vanilla resolution selects the manifest's recorded
latest-release id for the latest spec and the exactly matching id otherwise;
a missing entry or an entry without a per-version metadata URL fails
VERSION_NOT_FOUND; the returned URL is the server-artifact URL extracted from
the fetched per-version metadata, not the metadata URL itself. -/
theorem vanilla_resolution (w : VanillaWorld) (version : String) :
    (w.manifest.versions.find? (fun v =>
        if version = "latest" then v.id = w.manifest.latestRelease
        else v.id = version) = none →
      getVanillaUrl w version = .error ⟨"Version not found.", .versionNotFound⟩) ∧
    (∀ e : VanillaEntry, w.manifest.versions.find? (fun v =>
        if version = "latest" then v.id = w.manifest.latestRelease
        else v.id = version) = some e →
      (e.url = "" →
        getVanillaUrl w version = .error ⟨"Version not found.", .versionNotFound⟩) ∧
      (e.url ≠ "" → getVanillaUrl w version = .ok (w.serverUrlOf e.url))) := by
  constructor
  · intro h
    simp [getVanillaUrl, h]
  · intro e h
    constructor
    · intro hu
      simp [getVanillaUrl, h, hu]
    · intro hu
      simp [getVanillaUrl, h, hu]

theorem vanilla_resolution_witness :
    getVanillaUrl
      ⟨⟨"1.21", [⟨"1.21", "https://meta/1.21.json"⟩]⟩, fun u => "server-at:" ++ u⟩
      "latest" = .ok "server-at:https://meta/1.21.json" :=
  ((vanilla_resolution
      ⟨⟨"1.21", [⟨"1.21", "https://meta/1.21.json"⟩]⟩, fun u => "server-at:" ++ u⟩
      "latest").2 ⟨"1.21", "https://meta/1.21.json"⟩ (by decide)).2 (by decide)

theorem findByName_append_fresh (l : List ConfigServer) (s : ConfigServer)
    (h : ∀ t ∈ l, t.name ≠ s.name) : findByName (l ++ [s]) s.name = some s := by
  induction l with
  | nil => simp [findByName]
  | cons a t ih =>
    have ha : a.name ≠ s.name := h a (by simp)
    simp only [findByName, List.cons_append, List.find?]
    simp only [ha, decide_False]
    exact ih (fun t2 ht => h t2 (by simp [ht]))

/-- Claim C1 (counterexample): a record whose name is the empty string is
accepted by addServer, yet getServer with that name returns nothing, because
the source checks the name argument with JavaScript truthiness. -/
theorem add_get_empty_name_counterexample :
    (addServerOp true ⟨[], ""⟩ ⟨"", "p", "j", .vanilla⟩).2 = none ∧
    (addServerOp true ⟨[], ""⟩ ⟨"", "p", "j", .vanilla⟩).1.servers =
      [⟨"", "p", "j", .vanilla⟩] ∧
    getServer (addServerOp true ⟨[], ""⟩ ⟨"", "p", "j", .vanilla⟩).1.servers
      (some "") none = none := by
  refine ⟨rfl, rfl, ?_⟩
  simp [getServer, truthy]

/-- Claim C1 (amended): for a record s with a non-empty name whose name and
path occur in no existing record, addServer(s) appends s and getServer by
s.name returns s; and in any registry, adding a record sharing a name or a
path with an existing record raises SERVER_EXISTS and leaves the record
sequence unchanged (the conflict check precedes any mutation). -/
theorem add_then_get (writeOk : Bool) (st : ConfigState) (s : ConfigServer)
    (hn : ∀ t ∈ st.servers, t.name ≠ s.name)
    (hp : ∀ t ∈ st.servers, t.path ≠ s.path)
    (hne : s.name ≠ "") :
    (addServerOp writeOk st s).1.servers = st.servers ++ [s] ∧
    getServer (addServerOp writeOk st s).1.servers (some s.name) none = some s ∧
    (∀ (st2 : ConfigState) (s2 : ConfigServer) (w2 : Bool),
      ((∃ t ∈ st2.servers, t.name = s2.name) ∨ (∃ t ∈ st2.servers, t.path = s2.path)) →
      (addServerOp w2 st2 s2).1 = st2 ∧
      ∃ e, (addServerOp w2 st2 s2).2 = some e ∧ e.code = ConfigErrorCode.serverExists) := by
  have hfn : findByName st.servers s.name = none := by
    rw [findByName, List.find?_eq_none]
    intro t ht
    simp [hn t ht]
  have hfp : findByPath st.servers s.path = none := by
    rw [findByPath, List.find?_eq_none]
    intro t ht
    simp [hp t ht]
  have hservers : (addServerOp writeOk st s).1.servers = st.servers ++ [s] := by
    cases writeOk <;> simp [addServerOp, hfn, hfp, saveOp]
  refine ⟨hservers, ?_, ?_⟩
  · rw [hservers]
    simp only [getServer, truthy]
    rw [if_pos (by simp [hne])]
    simpa using findByName_append_fresh st.servers s hn
  · intro st2 s2 w2 hconf
    by_cases hc1 : (findByName st2.servers s2.name).isSome
    · simp [addServerOp, hc1]
    · have hc2 : (findByPath st2.servers s2.path).isSome := by
        rcases hconf with ⟨t, ht, hteq⟩ | ⟨t, ht, hteq⟩
        · exact absurd (by rw [findByName, List.find?_isSome]; exact ⟨t, ht, by simp [hteq]⟩) hc1
        · rw [findByPath, List.find?_isSome]
          exact ⟨t, ht, by simp [hteq]⟩
      simp [addServerOp, hc1, hc2]

theorem add_then_get_witness :
    (addServerOp true ⟨[], ""⟩ ⟨"a", "p", "j", .vanilla⟩).1.servers =
      [] ++ [⟨"a", "p", "j", .vanilla⟩] ∧
    getServer (addServerOp true ⟨[], ""⟩ ⟨"a", "p", "j", .vanilla⟩).1.servers
      (some "a") none = some ⟨"a", "p", "j", .vanilla⟩ :=
  ⟨(add_then_get true ⟨[], ""⟩ ⟨"a", "p", "j", .vanilla⟩ (by simp) (by simp) (by simp)).1,
   (add_then_get true ⟨[], ""⟩ ⟨"a", "p", "j", .vanilla⟩ (by simp) (by simp) (by simp)).2.1⟩

/-- Claim C3 (counterexample): two stdout chunks matching the ready pattern
schedule two stop writes, not one: the handler has no deduplication flag. -/
theorem duplicate_stop_write_counterexample :
    regexDoneTest ("Done (3.123s)! For help, type " ++ "\"help\"").data = true ∧
    scheduledStopCount
      [("Done (3.123s)! For help, type " ++ "\"help\""),
       ("Done (3.123s)! For help, type " ++ "\"help\"")] = 2 := by
  constructor
  · decide
  · decide

/-- Claim C3 (amended): every stdout chunk whose trimmed text matches the
ready-signal pattern schedules one stop-write after the fixed 5000 ms delay;
n matching chunks schedule n stop writes (there is no deduplication across
lines). -/
theorem stop_write_per_matching_chunk (chunks : List String) :
    scheduledStopCount chunks =
      (chunks.filter (fun c => regexDoneTest (trimWs c.data))).length ∧
    (∀ c : String, regexDoneTest (trimWs c.data) = true →
      handleStdoutChunk c = [SupWrite.scheduledStop 5000 "stop\n"]) := by
  constructor
  · induction chunks with
    | nil => rfl
    | cons c rest ih =>
      simp only [scheduledStopCount, firstRunWrites, List.count_append] at ih ⊢
      by_cases h : regexDoneTest (trimWs c.data)
      · simp [handleStdoutChunk, h, List.filter_cons, ih, List.count_cons, Nat.add_comm]
      · have hz : (handleStdoutChunk c).count (SupWrite.scheduledStop 5000 "stop\n") = 0 := by
          simp only [handleStdoutChunk]
          rw [if_neg (by simp [h])]
          split
          · simp [List.count_cons]
          · split
            · simp [List.count_cons]
            · simp
        simp [List.filter_cons, h, hz, ih]
  · intro c h
    simp [handleStdoutChunk, h]

theorem stop_write_per_matching_chunk_witness :
    handleStdoutChunk ("Done ()! For help, type " ++ "\"help\"") =
      [SupWrite.scheduledStop 5000 "stop\n"] :=
  (stop_write_per_matching_chunk []).2 ("Done ()! For help, type " ++ "\"help\"")
    (by decide)

theorem jsObjSet_mem_ne (ps : List (String × String)) (prop value k v : String)
    (hk : k ≠ prop) : (k, v) ∈ jsObjSet ps prop value ↔ (k, v) ∈ ps := by
  induction ps with
  | nil => simp [jsObjSet, hk]
  | cons p rest ih =>
    obtain ⟨k0, v0⟩ := p
    by_cases h0 : k0 = prop
    · subst h0
      simp [jsObjSet, hk]
    · simp [jsObjSet, h0, List.mem_cons, ih]

theorem jsObjSet_keys (ps : List (String × String)) (prop value : String)
    (hmem : prop ∈ ps.map Prod.fst) :
    (jsObjSet ps prop value).map Prod.fst = ps.map Prod.fst := by
  induction ps with
  | nil => simp at hmem
  | cons p rest ih =>
    obtain ⟨k0, v0⟩ := p
    by_cases h0 : k0 = prop
    · subst h0
      simp [jsObjSet]
    · have h2 : prop ∈ rest.map Prod.fst := by
        simp only [List.map_cons, List.mem_cons] at hmem
        rcases hmem with h3 | h3
        · exact absurd h3.symm h0
        · exact h3
      simp [jsObjSet, h0, ih h2]

theorem mem_insertByIdx (kv x : String × String) (l : List (String × String)) :
    x ∈ insertByIdx kv l ↔ x = kv ∨ x ∈ l := by
  induction l with
  | nil => simp [insertByIdx]
  | cons kv0 rest ih =>
    by_cases h : digitsToNat kv.1.data ≤ digitsToNat kv0.1.data
    · simp [insertByIdx, h]
    · simp only [insertByIdx, if_neg h, List.mem_cons, ih]
      tauto

theorem mem_sortByIdx (x : String × String) (l : List (String × String)) :
    x ∈ sortByIdx l ↔ x ∈ l := by
  induction l with
  | nil => simp [sortByIdx]
  | cons kv rest ih => simp [sortByIdx, mem_insertByIdx, ih]

theorem mem_jsEntries (x : String × String) (ps : List (String × String)) :
    x ∈ jsEntries ps ↔ x ∈ ps := by
  simp only [jsEntries, List.mem_append, mem_sortByIdx, List.mem_filter,
    Bool.not_eq_true']
  by_cases h : isArrayIndex x.1 = true <;> simp [h]

theorem jsObjSet_mem_self (ps : List (String × String)) (prop value : String) :
    (prop, value) ∈ jsObjSet ps prop value := by
  induction ps with
  | nil => simp [jsObjSet]
  | cons p rest ih =>
    obtain ⟨k0, v0⟩ := p
    by_cases h0 : k0 = prop
    · subst h0
      simp [jsObjSet]
    · simp [jsObjSet, h0, ih]

/-- Claim C6 (counterexample): rewriting a properties file after editing one
key does not preserve comment lines: the comment line of the original file is
absent from the rewritten file. -/
theorem comment_line_dropped_counterexample :
    editProperty "#c\na=1" "a" "2" = .ok "a=2" ∧
    "#c" ∈ splitLines "#c\na=1" ∧
    "#c" ∉ splitLines "a=2" := by
  decide

/-- Claim C6 (amended): when the file parses, editing one property rewrites
it as exactly the parsed key=value entries in Object.entries enumeration
order with only the selected key's value changed: every other parsed entry is
preserved, insertion key order is preserved when the key was present, the
edited pair is present, and the written entries are exactly the entries of
the updated object; comment and blank lines are dropped by the rewrite rather
than preserved, and on a file with a line having no equals sign the parse
throws, so no rewrite is produced at all. -/
theorem property_edit_frame (content prop value : String)
    (ps : List (String × String)) (h : parseProperties content = .ok ps) :
    editProperty content prop value = .ok (serializeProps (jsObjSet ps prop value)) ∧
    (∀ k v : String, k ≠ prop →
      ((k, v) ∈ jsObjSet ps prop value ↔ (k, v) ∈ ps)) ∧
    (prop ∈ ps.map Prod.fst →
      (jsObjSet ps prop value).map Prod.fst = ps.map Prod.fst) ∧
    (prop, value) ∈ jsObjSet ps prop value ∧
    (∀ k v : String, (k, v) ∈ jsEntries (jsObjSet ps prop value) ↔
      (k, v) ∈ jsObjSet ps prop value) ∧
    (∀ content2 : String, parseProperties content2 = .error () →
      editProperty content2 prop value = .error ()) := by
  refine ⟨by simp [editProperty, h], ?_, ?_, jsObjSet_mem_self ps prop value,
    ?_, ?_⟩
  · intro k v hk
    exact jsObjSet_mem_ne ps prop value k v hk
  · intro hmem
    exact jsObjSet_keys ps prop value hmem
  · intro k v
    exact mem_jsEntries (k, v) (jsObjSet ps prop value)
  · intro content2 h2
    simp [editProperty, h2]

theorem property_edit_frame_witness :
    editProperty "a=1\nb=2" "a" "3" =
      .ok (serializeProps (jsObjSet [("a", "1"), ("b", "2")] "a" "3")) ∧
    (("b", "2") ∈ jsObjSet [("a", "1"), ("b", "2")] "a" "3" ↔
      ("b", "2") ∈ [("a", "1"), ("b", "2")]) ∧
    ("a", "3") ∈ jsObjSet [("a", "1"), ("b", "2")] "a" "3" ∧
    (("a", "3") ∈ jsEntries (jsObjSet [("a", "1"), ("b", "2")] "a" "3") ↔
      ("a", "3") ∈ jsObjSet [("a", "1"), ("b", "2")] "a" "3") ∧
    editProperty "nokey" "a" "3" = .error () := by
  have h := property_edit_frame "a=1\nb=2" "a" "3" [("a", "1"), ("b", "2")] (by decide)
  exact ⟨h.1, h.2.1 "b" "2" (by decide), h.2.2.2.1,
    h.2.2.2.2.1 "a" "3", h.2.2.2.2.2 "nokey" (by decide)⟩

/-- Claim C10: removeServer never raises SERVER_NOT_FOUND (nor does any other
registry operation); it removes every record whose name equals the argument,
leaves the sequence unchanged when none matches, and unconditionally rewrites
the backing file. -/
theorem removeServer_never_serverNotFound (writeOk : Bool) (st : ConfigState)
    (name : String) :
    (∀ e : ConfigError, (removeServerOp writeOk st name).2 = some e →
      e.code ≠ ConfigErrorCode.serverNotFound) ∧
    (removeServerOp writeOk st name).1.servers =
      st.servers.filter (fun s => s.name ≠ name) ∧
    ((∀ s ∈ st.servers, s.name ≠ name) →
      (removeServerOp writeOk st name).1.servers = st.servers) ∧
    (writeOk = true →
      (removeServerOp writeOk st name).1.file =
        stringifyConfig (st.servers.filter (fun s => s.name ≠ name))) ∧
    (∀ (s2 : ConfigServer) (e : ConfigError), (addServerOp writeOk st s2).2 = some e →
      e.code ≠ ConfigErrorCode.serverNotFound) ∧
    (∀ e : ConfigError, (saveOp writeOk st).2 = some e →
      e.code ≠ ConfigErrorCode.serverNotFound) ∧
    (∀ e : ConfigError, (loadOp st).2 = some e →
      e.code ≠ ConfigErrorCode.serverNotFound) := by
  refine ⟨?_, ?_, ?_, ?_, ?_, ?_, ?_⟩
  · intro e he
    cases writeOk <;> simp [removeServerOp, saveOp] at he
    rw [← he]
    decide
  · cases writeOk <;> simp [removeServerOp, saveOp]
  · intro hall
    have h2 : (removeServerOp writeOk st name).1.servers =
        st.servers.filter (fun s => s.name ≠ name) := by
      cases writeOk <;> simp [removeServerOp, saveOp]
    rw [h2]
    rw [List.filter_eq_self.mpr]
    intro a ha
    simp [hall a ha]
  · intro hw
    subst hw
    simp [removeServerOp, saveOp]
  · intro s2 e he
    cases writeOk <;> simp only [addServerOp, saveOp] at he <;> split_ifs at he <;>
      simp only [Option.some.injEq] at he <;> rw [← he] <;> decide
  · intro e he
    cases writeOk <;> simp [saveOp] at he
    rw [← he]
    decide
  · intro e he
    unfold loadOp at he
    split at he
    · exact absurd he (by simp)
    · simp only [Option.some.injEq] at he
      rw [← he]
      decide

theorem removeServer_never_serverNotFound_witness :
    (removeServerOp true ⟨[⟨"a", "p", "j", .vanilla⟩], ""⟩ "b").1.servers =
      [⟨"a", "p", "j", .vanilla⟩] ∧
    (removeServerOp true ⟨[⟨"a", "p", "j", .vanilla⟩], ""⟩ "b").1.file =
      stringifyConfig ([⟨"a", "p", "j", .vanilla⟩].filter (fun s => s.name ≠ "b")) := by
  have h := removeServer_never_serverNotFound true ⟨[⟨"a", "p", "j", .vanilla⟩], ""⟩ "b"
  exact ⟨h.2.2.1 (by decide), h.2.2.2.1 rfl⟩

end EZServer
